import Mathlib

/-!
Verification of the failstats Go client (`src/main.go`, second/full version).

Shallow embedding conventions:

* Instants (`time.Time` values at millisecond precision, which is the
  precision of the fail2ban log timestamps parsed with layout
  `"2006-01-02 15:04:05.000"`) are modelled as `Int` milliseconds on an
  absolute time line whose origin is year 1, 00:00:00 UTC.
* Go's `date.After(t)` is strict `<` on those integers.
* Go's second-precision rendering `t.Format("2006-01-02 15:04:05")` is
  injective on the floor-second value of an instant, and two renderings are
  equal exactly when the floor-second values are equal; we model the
  rendering by `fmtSec` (a stand-in string image of the floor-second value)
  and the comparison of two renderings by equality of `secOf` values.
* The RFC3339 rendering written by `saveRun` is likewise modelled by an
  injective stand-in `rfc3339Fmt`.
* A scanned log line is `Option Entry`: `none` for a line the ban regex does
  not match (such lines are ignored by the loop), `some e` for a matched
  line whose capture groups have been parsed into `e` (timestamp, service
  name, banned IP).  Timestamp-parse failures abort the cycle in the source
  and are outside the claims considered here.
* The transport collaborator is an oracle: `none` models a failed
  `client.Do` call, `some body` a response whose body is `body`; the code
  reads exactly the first line of the body.
* File-system effects of the watermark store are modelled by the
  `watermarkFile`/`savedWatermark` fields of the cycle result: the content
  of `/var/lib/failstats/lastrun` after the cycle, and the instant passed to
  `saveRun` when it is called.
-/

namespace Failstats

/-- Instants as milliseconds, see the module comment. -/
abbrev Timestamp := Int

/-- One parsed match of the ban regex: capture groups 1 (timestamp,
already parsed), 2 (service name) and 3 (banned IP). -/
structure Entry where
  date : Timestamp
  service : String
  ip : String
deriving DecidableEq, Repr

/-- A scanned log line: `none` when the ban regex does not match. -/
abbrev Line := Option Entry

/-- A log file, as the sequence of its scanned lines. -/
abbrev LogFile := List Line

/-- Floor-second value of an instant; two Go renderings with layout
`"2006-01-02 15:04:05"` are equal iff these values are equal. -/
def secOf (t : Timestamp) : Int := Int.fdiv t 1000

/-- Stand-in for Go's second-precision rendering
`t.Format("2006-01-02 15:04:05")` (injective image of `secOf`). -/
def fmtSec (t : Timestamp) : String := toString (secOf t)

/-- Stand-in for Go's `t.Format(time.RFC3339)` rendering (injective). -/
def rfc3339Fmt (t : Timestamp) : String := toString t

/-- `stringInStringSlice` from `src/main.go`: checks if `str` is in `list`. -/
def stringInStringSlice (str : String) : List String → Bool
  | [] => false
  | st :: rest => if st = str then true else stringInStringSlice str rest

/-- The accumulating state of the scan loop of `processBans`
(`src/main.go` lines 255-345): the three parallel slices `banDates`,
`banIPs`, `services` and the running maximum `current`. -/
structure ScanState where
  banDates : List String
  banIPs : List String
  services : List String
  current : Timestamp
deriving DecidableEq, Repr

/-- The service string appended by `processBans` lines 314-328: the value of
the branch on `reportServices`, `len(dontReport)` and membership. -/
def serviceField (reportServices : Int) (dontReport : List String)
    (service : String) : String :=
  if reportServices = 0 then "undisclosed"
  else if dontReport.length = 0 then service
  else if stringInStringSlice service dontReport then "undisclosed"
  else service

/-- The date string appended by `processBans` lines 310-312:
`date.Add(-offset seconds)` rendered at second precision with the literal
suffix `" UTC+0000"`.  `offset` is in seconds, as returned by `Zone()`. -/
def banDateField (offset : Int) (date : Timestamp) : String :=
  fmtSec (date - offset * 1000) ++ " UTC+0000"

/-- The body of the inner `for scanner.Scan()` loop of `processBans`
(`src/main.go` lines 291-339) for one scanned line, acting on the scan
state paired with the per-file `lastFile` flag. -/
def processBansLine (lastRunTime : Timestamp) (offset reportServices : Int)
    (dontReport : List String) (s : ScanState × Bool) (line : Line) :
    ScanState × Bool :=
  match line with
  | none => s
  | some e =>
    -- line 304: second-precision format equality, then `continue`
    if secOf lastRunTime = secOf e.date then s
    else
      let s1 : ScanState × Bool :=
        -- line 308: `date.After(lastRunTime)`
        if lastRunTime < e.date then
          ({ s.1 with
              banDates := s.1.banDates ++ [banDateField offset e.date],
              services := s.1.services ++
                [serviceField reportServices dontReport e.service],
              banIPs := s.1.banIPs ++ [e.ip] }, s.2)
        else
          -- lines 331-334: has to complete the file
          (s.1, true)
      -- lines 336-338: running maximum
      if s1.1.current < e.date then ({ s1.1 with current := e.date }, s1.2)
      else s1

/-- Scanning one file of the set (`src/main.go` lines 290-340): the
`lastFile` flag is reset to `false` at the top of each file. -/
def processBansFile (lastRunTime : Timestamp) (offset reportServices : Int)
    (dontReport : List String) (st : ScanState) (file : LogFile) :
    ScanState × Bool :=
  file.foldl (processBansLine lastRunTime offset reportServices dontReport)
    (st, false)

/-- The outer file loop of `processBans` (`src/main.go` lines 264-345):
after each file, `if lastFile { break }`. -/
def processBansScan (lastRunTime : Timestamp) (offset reportServices : Int)
    (dontReport : List String) (st : ScanState) : List LogFile → ScanState
  | [] => st
  | f :: fs =>
    let r := processBansFile lastRunTime offset reportServices dontReport st f
    if r.2 then r.1
    else processBansScan lastRunTime offset reportServices dontReport r.1 fs

/-- The `data` variable built by `processBans` lines 353-357: for
`i = 0 .. len(banDates)-1`, the row `[banDates[i], banIPs[i], services[i]]`. -/
def buildData (st : ScanState) : List (List String) :=
  (List.range st.banDates.length).map fun i =>
    [st.banDates.getD i "", st.banIPs.getD i "", st.services.getD i ""]

/-- Characters of a text up to (excluding) the first newline. -/
def firstLineChars : List Char → List Char
  | [] => []
  | c :: cs => if c = '\n' then [] else c :: firstLineChars cs

/-- The first line read from a text by a single
`scanner.Scan(); scanner.Text()` (`src/main.go` lines 465-467). -/
def firstLine (body : String) : String := String.mk (firstLineChars body.data)

/-- `saveRun` from `src/main.go` lines 638-654, as the file content it
writes: the RFC3339 rendering of the instant. -/
def saveRun (t : Timestamp) : String := rfc3339Fmt t

/-- The three ways `processBans` returns, keyed by the Go return value:
`fatal` is every `(0, err)` path, `nothingToDo` is `(1, nil)` (line 350),
`reported` is `(2, nil)` (line 481). -/
inductive CycleOutcome where
  | fatal
  | nothingToDo
  | reported
deriving DecidableEq, Repr

/-- Observable result of one `processBans` cycle. -/
structure CycleResult where
  outcome : CycleOutcome
  transportCalled : Bool
  payload : List (List String)
  savedWatermark : Option Timestamp
  watermarkFile : String
deriving DecidableEq, Repr

/-- `processBans` from `src/main.go` lines 236-482, on the pre-resolved
file contents: scan all files from the watermark `lastRunTime`, return
`(1, nil)` when no bans were collected (lines 347-351), otherwise build
`data`, contact the transport, fail unless the first response line is
`"1"` (lines 465-471), and only then `saveRun(current)` (line 474).
`wmFile` is the watermark file content before the cycle. -/
def processBans (files : List LogFile) (lastRunTime : Timestamp)
    (offset reportServices : Int) (dontReport : List String)
    (response : Option String) (wmFile : String) : CycleResult :=
  let st := processBansScan lastRunTime offset reportServices dontReport
    { banDates := [], banIPs := [], services := [], current := lastRunTime }
    files
  if st.banIPs.length = 0 then
    { outcome := CycleOutcome.nothingToDo, transportCalled := false,
      payload := [], savedWatermark := none, watermarkFile := wmFile }
  else
    let data := buildData st
    match response with
    | none =>
      -- lines 458-463: `client.Do` failed
      { outcome := CycleOutcome.fatal, transportCalled := true,
        payload := data, savedWatermark := none, watermarkFile := wmFile }
    | some body =>
      if firstLine body ≠ "1" then
        -- lines 468-471: failed to transfer data
        { outcome := CycleOutcome.fatal, transportCalled := true,
          payload := data, savedWatermark := none, watermarkFile := wmFile }
      else
        -- line 474: saves the last run
        { outcome := CycleOutcome.reported, transportCalled := true,
          payload := data, savedWatermark := some st.current,
          watermarkFile := saveRun st.current }

/-- `reverseStrSlice` from `src/main.go` lines 529-536: appends the
elements from the last index down to 0. -/
def reverseStrSlice : List String → List String
  | [] => []
  | x :: xs => reverseStrSlice xs ++ [x]

/-- `findLogFiles` from `src/main.go` lines 485-526, on the directory
listing `files` (in directory order) and the compiled `logName` regex as
the predicate `matchesRe`.  `none` models the error return for an empty
match set; the directory-read error path is outside this model. -/
def findLogFiles (files : List String) (matchesRe : String → Bool) :
    Option (List String) :=
  let logFiles := files.filter matchesRe
  let logRotate :=
    -- `strings.Contains(f.Name(), "-")`, checked on each matched name
    if logFiles.any (fun n => n.data.contains '-') then "date" else "normal"
  if logFiles.length = 0 then none
  else if logRotate = "normal" then some logFiles
  else some (reverseStrSlice (logFiles.drop 1 ++ ["fail2ban.log"]))

/-- What `os.Stat`/reading can reveal about the lastrun path in `lastRun`:
the file is absent, `Stat` failed otherwise, the path is a directory, or a
regular file with the given content. -/
inductive FileState where
  | notExist
  | statFail
  | isDir
  | regular (content : String)
deriving DecidableEq, Repr

/-- `defaultTime` from `src/main.go` line 543:
`time.Date(1, 1, 1, 1, 1, 1, 1, time.UTC)`, i.e. 01:01:01 on the first day
of year 1 (the sub-millisecond nanosecond is dropped by the model). -/
def defaultTime : Timestamp := 3661000

/-- `lastRun` from `src/main.go` lines 539-578.  `parse` is Go's
`time.Parse(time.RFC3339, ·)` as an oracle (`none` = parse error); the
first line of the file content is what the single `scanner.Scan()` reads.
The open-failure path of a regular file is outside this model. -/
def lastRun (parse : String → Option Timestamp) (lastRunFile : String)
    (fs : FileState) : Except String Timestamp :=
  match fs with
  | FileState.notExist => Except.ok defaultTime
  | FileState.statFail => Except.error ("Unable to access " ++ lastRunFile)
  | FileState.isDir => Except.error (lastRunFile ++ " is a directory")
  | FileState.regular content =>
    match parse (firstLine content) with
    | some t => Except.ok t
    | none =>
      Except.error ("Unable to parse last run time from " ++ lastRunFile)

/-! ### Specification-side characterisation of the scan

The following functions are *not* translations of the source; they are the
closed-form description of which entries the scan retains, proved
equivalent to the fold below (`processBansScan_eq`). -/

/-- The entry retained from one scanned line, if any: not in the
watermark's formatted second, and strictly after the watermark. -/
def newEntry (lastRunTime : Timestamp) : Line → Option Entry
  | none => none
  | some e =>
    if secOf lastRunTime = secOf e.date then none
    else if lastRunTime < e.date then some e
    else none

/-- The entries one file contributes to the batch. -/
def fileNewEntries (lastRunTime : Timestamp) (file : LogFile) : List Entry :=
  file.filterMap (newEntry lastRunTime)

/-- Whether one scanned line sets the `lastFile` flag. -/
def lineTerminal (lastRunTime : Timestamp) : Line → Bool
  | none => false
  | some e =>
    if secOf lastRunTime = secOf e.date then false
    else if lastRunTime < e.date then false
    else true

/-- Whether a file contains a flag-setting line. -/
def fileHasTerminal (lastRunTime : Timestamp) (file : LogFile) : Bool :=
  file.any (lineTerminal lastRunTime)

/-- All entries the cycle retains as new, over the resolved file set,
honouring the early stop after a terminal file. -/
def newEntries (lastRunTime : Timestamp) : List LogFile → List Entry
  | [] => []
  | f :: fs =>
    fileNewEntries lastRunTime f ++
      (if fileHasTerminal lastRunTime f then []
       else newEntries lastRunTime fs)

/-- The timestamps of the retained entries. -/
def newDates (lastRunTime : Timestamp) (files : List LogFile) : List Timestamp :=
  (newEntries lastRunTime files).map Entry.date

/-- The report phase of `processBans` as a function of the batch, the
candidate watermark, the transport oracle and the prior watermark file
content; `processBans_eq` below proves `processBans` equal to the scan
characterisation combined with this function. -/
def reportOutcome (data : List (List String)) (cur : Timestamp)
    (response : Option String) (wm : String) : CycleResult :=
  match response with
  | none => ⟨CycleOutcome.fatal, true, data, none, wm⟩
  | some body =>
    if firstLine body ≠ "1" then ⟨CycleOutcome.fatal, true, data, none, wm⟩
    else ⟨CycleOutcome.reported, true, data, some cur, rfc3339Fmt cur⟩

end Failstats

/-!
## Correspondence lemmas

The fold that `processBans` runs over the files is proved equal to the
closed-form description `newEntries` / `fileHasTerminal`, and `processBans`
itself to the combination of that description with `reportOutcome`.
-/

namespace Failstats

lemma processBansLine_none (lr : Timestamp) (off rs : Int) (dr : List String)
    (s : ScanState × Bool) : processBansLine lr off rs dr s none = s := rfl

lemma processBansLine_skip (lr : Timestamp) (off rs : Int) (dr : List String)
    (s : ScanState × Bool) (e : Entry) (h1 : secOf lr = secOf e.date) :
    processBansLine lr off rs dr s (some e) = s := by
  simp [processBansLine, h1]

lemma processBansLine_new (lr : Timestamp) (off rs : Int) (dr : List String)
    (st : ScanState) (b : Bool) (e : Entry)
    (h1 : ¬ secOf lr = secOf e.date) (h2 : lr < e.date) :
    processBansLine lr off rs dr (st, b) (some e) =
      ({ banDates := st.banDates ++ [banDateField off e.date],
         banIPs := st.banIPs ++ [e.ip],
         services := st.services ++ [serviceField rs dr e.service],
         current := max st.current e.date }, b) := by
  simp only [processBansLine, if_neg h1, if_pos h2]
  by_cases h3 : st.current < e.date
  · simp [h3, max_eq_right h3.le]
  · simp [h3, max_eq_left (not_lt.mp h3)]

lemma processBansLine_stop (lr : Timestamp) (off rs : Int) (dr : List String)
    (st : ScanState) (b : Bool) (e : Entry)
    (h1 : ¬ secOf lr = secOf e.date) (h2 : ¬ lr < e.date)
    (h3 : lr ≤ st.current) :
    processBansLine lr off rs dr (st, b) (some e) = (st, true) := by
  have h4 : ¬ st.current < e.date := fun hc => h2 (lt_of_le_of_lt h3 hc)
  simp [processBansLine, h1, h2, h4]

lemma newEntry_none (lr : Timestamp) : newEntry lr none = none := rfl

lemma lineTerminal_none (lr : Timestamp) : lineTerminal lr none = false := rfl

lemma newEntry_some (lr : Timestamp) (e : Entry) :
    newEntry lr (some e) =
      (if secOf lr = secOf e.date then none
       else if lr < e.date then some e else none) := rfl

lemma lineTerminal_some (lr : Timestamp) (e : Entry) :
    lineTerminal lr (some e) =
      (if secOf lr = secOf e.date then false
       else if lr < e.date then false else true) := rfl

lemma le_foldl_maxDate (l : List Entry) :
    ∀ (c : Timestamp), c ≤ l.foldl (fun a e => max a e.date) c := by
  induction l with
  | nil => intro c; exact le_refl c
  | cons e tl ih =>
    intro c
    exact le_trans (le_max_left c e.date) (ih (max c e.date))

lemma foldl_processBansLine (lr : Timestamp) (off rs : Int) (dr : List String)
    (file : LogFile) :
    ∀ (st : ScanState) (b : Bool), lr ≤ st.current →
      file.foldl (processBansLine lr off rs dr) (st, b) =
        ({ banDates := st.banDates ++
             (fileNewEntries lr file).map (fun e => banDateField off e.date),
           banIPs := st.banIPs ++ (fileNewEntries lr file).map Entry.ip,
           services := st.services ++
             (fileNewEntries lr file).map (fun e => serviceField rs dr e.service),
           current :=
             (fileNewEntries lr file).foldl (fun a e => max a e.date) st.current },
         (b || fileHasTerminal lr file)) := by
  induction file with
  | nil => intro st b h; simp [fileNewEntries, fileHasTerminal]
  | cons l rest ih =>
    intro st b h
    cases l with
    | none =>
      rw [List.foldl_cons, processBansLine_none, ih st b h]
      simp [fileNewEntries, fileHasTerminal, List.filterMap_cons, List.any_cons,
        newEntry_none, lineTerminal_none]
    | some e =>
      by_cases h1 : secOf lr = secOf e.date
      · rw [List.foldl_cons, processBansLine_skip _ _ _ _ _ _ h1, ih st b h]
        simp [fileNewEntries, fileHasTerminal, List.filterMap_cons, List.any_cons,
          newEntry_some, lineTerminal_some, h1]
      · by_cases h2 : lr < e.date
        · rw [List.foldl_cons, processBansLine_new _ _ _ _ _ _ _ h1 h2,
            ih _ b (le_trans h (le_max_left _ _))]
          simp [fileNewEntries, fileHasTerminal, List.filterMap_cons, List.any_cons,
            newEntry_some, lineTerminal_some, h1, h2, List.append_assoc]
        · rw [List.foldl_cons, processBansLine_stop _ _ _ _ _ _ _ h1 h2 h,
            ih st true h]
          simp [fileNewEntries, fileHasTerminal, List.filterMap_cons, List.any_cons,
            newEntry_some, lineTerminal_some, h1, h2]

lemma processBansLine_flag (lr : Timestamp) (off rs : Int) (dr : List String)
    (s : ScanState × Bool) (l : Line) :
    (processBansLine lr off rs dr s l).2 = (s.2 || lineTerminal lr l) := by
  cases l with
  | none => simp [processBansLine, lineTerminal]
  | some e =>
    simp only [processBansLine, lineTerminal]
    split_ifs <;> simp

lemma foldl_processBansLine_flag (lr : Timestamp) (off rs : Int)
    (dr : List String) (file : LogFile) :
    ∀ (s : ScanState × Bool),
      (file.foldl (processBansLine lr off rs dr) s).2 =
        (s.2 || fileHasTerminal lr file) := by
  induction file with
  | nil => intro s; simp [fileHasTerminal]
  | cons l rest ih =>
    intro s
    rw [List.foldl_cons, ih]
    simp [processBansLine_flag, fileHasTerminal, Bool.or_assoc]

lemma processBansScan_eq (lr : Timestamp) (off rs : Int) (dr : List String)
    (files : List LogFile) :
    ∀ (st : ScanState), lr ≤ st.current →
      processBansScan lr off rs dr st files =
        { banDates := st.banDates ++
            (newEntries lr files).map (fun e => banDateField off e.date),
          banIPs := st.banIPs ++ (newEntries lr files).map Entry.ip,
          services := st.services ++
            (newEntries lr files).map (fun e => serviceField rs dr e.service),
          current :=
            (newEntries lr files).foldl (fun a e => max a e.date) st.current } := by
  induction files with
  | nil => intro st h; simp [processBansScan, newEntries]
  | cons f fs ih =>
    intro st h
    simp only [processBansScan, processBansFile]
    rw [foldl_processBansLine lr off rs dr f st false h]
    cases hterm : fileHasTerminal lr f with
    | true => simp [newEntries, hterm]
    | false =>
      simp only [Bool.false_or, hterm, if_false]
      rw [ih _ (le_trans h (le_foldl_maxDate _ _))]
      simp [newEntries, hterm, List.append_assoc, List.foldl_append]

lemma range_map_getD (news : List Entry) (f g h : Entry → String) :
    (List.range news.length).map (fun i =>
        [(news.map f).getD i "", (news.map g).getD i "", (news.map h).getD i ""])
      = news.map (fun e => [f e, g e, h e]) := by
  induction news with
  | nil => simp
  | cons e tl ih =>
    rw [List.length_cons, List.range_succ_eq_map]
    simp only [List.map_cons, List.map_map, Function.comp_def,
      List.getD_cons_zero, List.getD_cons_succ]
    rw [ih]

lemma buildData_eq (news : List Entry) (f g h : Entry → String) (c : Timestamp) :
    buildData { banDates := news.map f, banIPs := news.map g,
                services := news.map h, current := c }
      = news.map (fun e => [f e, g e, h e]) := by
  simp only [buildData, List.length_map]
  exact range_map_getD news f g h

lemma foldl_maxDate_eq_map (news : List Entry) (c : Timestamp) :
    news.foldl (fun a e => max a e.date) c = (news.map Entry.date).foldl max c :=
  (List.foldl_map _ _ _ _).symm

lemma le_foldl_max (l : List Int) : ∀ c : Int, c ≤ l.foldl max c := by
  induction l with
  | nil => intro c; exact le_refl c
  | cons x xs ih => intro c; exact le_trans (le_max_left c x) (ih (max c x))

lemma foldl_max_le (l : List Int) : ∀ (c x : Int), x ∈ l → x ≤ l.foldl max c := by
  induction l with
  | nil => intro c x hx; cases hx
  | cons y ys ih =>
    intro c x hx
    rcases List.mem_cons.mp hx with h | h
    · subst h; exact le_trans (le_max_right c x) (le_foldl_max ys (max c x))
    · exact ih (max c y) x h

lemma foldl_max_mem (l : List Int) :
    ∀ c : Int, l.foldl max c = c ∨ l.foldl max c ∈ l := by
  induction l with
  | nil => intro c; exact Or.inl rfl
  | cons x xs ih =>
    intro c
    rcases ih (max c x) with h | h
    · rcases max_choice c x with hm | hm
      · exact Or.inl (by rw [List.foldl_cons, h, hm])
      · exact Or.inr (by rw [List.foldl_cons, h, hm]; exact List.mem_cons_self x xs)
    · exact Or.inr (List.mem_cons_of_mem x h)

lemma mem_fileNewEntries (lr : Timestamp) (file : LogFile) (e : Entry) :
    e ∈ fileNewEntries lr file → lr < e.date := by
  intro h
  rcases List.mem_filterMap.mp h with ⟨l, _, he⟩
  cases l with
  | none => simp [newEntry] at he
  | some x =>
    rw [newEntry_some] at he
    by_cases h1 : secOf lr = secOf x.date
    · rw [if_pos h1] at he; cases he
    · rw [if_neg h1] at he
      by_cases h2 : lr < x.date
      · rw [if_pos h2] at he
        obtain rfl : x = e := Option.some.inj he
        exact h2
      · rw [if_neg h2] at he; cases he

lemma mem_newEntries (lr : Timestamp) :
    ∀ (files : List LogFile) (e : Entry), e ∈ newEntries lr files → lr < e.date := by
  intro files
  induction files with
  | nil => intro e h; cases h
  | cons f fs ih =>
    intro e h
    rcases List.mem_append.mp h with h | h
    · exact mem_fileNewEntries lr f e h
    · by_cases ht : fileHasTerminal lr f = true
      · rw [if_pos ht] at h; cases h
      · rw [if_neg ht] at h; exact ih e h

lemma processBans_scanState (files : List LogFile) (lr : Timestamp)
    (off rs : Int) (dr : List String) :
    processBansScan lr off rs dr
        { banDates := [], banIPs := [], services := [], current := lr } files =
      { banDates := (newEntries lr files).map (fun e => banDateField off e.date),
        banIPs := (newEntries lr files).map Entry.ip,
        services := (newEntries lr files).map (fun e => serviceField rs dr e.service),
        current := (newEntries lr files).foldl (fun a e => max a e.date) lr } := by
  rw [processBansScan_eq lr off rs dr files _ (le_refl lr)]
  simp

lemma processBans_eq (files : List LogFile) (lr : Timestamp) (off rs : Int)
    (dr : List String) (response : Option String) (wm : String) :
    processBans files lr off rs dr response wm =
      (if newEntries lr files = [] then
        ⟨CycleOutcome.nothingToDo, false, [], none, wm⟩
      else
        reportOutcome
          ((newEntries lr files).map
            (fun e => [banDateField off e.date, e.ip, serviceField rs dr e.service]))
          ((newEntries lr files).foldl (fun a e => max a e.date) lr)
          response wm) := by
  unfold processBans
  rw [processBans_scanState files lr off rs dr]
  by_cases hn : newEntries lr files = []
  · simp [hn]
  · have hlen : ¬ ((newEntries lr files).map Entry.ip).length = 0 := by
      simp [hn]
    rw [if_neg hlen, if_neg hn]
    rw [buildData_eq]
    cases response with
    | none => rfl
    | some body =>
      simp only [reportOutcome]
      by_cases hb : firstLine body ≠ "1"
      · rw [if_pos hb, if_pos hb]
      · rw [if_neg hb, if_neg hb]
        rfl

lemma reportOutcome_ok (data : List (List String)) (cur : Timestamp)
    (wm : String) (body : String) (hb : firstLine body = "1") :
    reportOutcome data cur (some body) wm =
      ⟨CycleOutcome.reported, true, data, some cur, rfc3339Fmt cur⟩ := by
  simp [reportOutcome, hb]

lemma reportOutcome_bad (data : List (List String)) (cur : Timestamp)
    (wm : String) (body : String) (hb : firstLine body ≠ "1") :
    reportOutcome data cur (some body) wm =
      ⟨CycleOutcome.fatal, true, data, none, wm⟩ := by
  simp [reportOutcome, hb]

lemma reverseStrSlice_eq (l : List String) : reverseStrSlice l = l.reverse := by
  induction l with
  | nil => rfl
  | cons x xs ih => simp [reverseStrSlice, ih]

lemma findLogFiles_date_eq (files : List String) (matchesRe : String → Bool)
    (hne : files.filter matchesRe ≠ [])
    (hdash : (files.filter matchesRe).any (fun n => n.data.contains '-') = true) :
    findLogFiles files matchesRe =
      some ("fail2ban.log" :: ((files.filter matchesRe).drop 1).reverse) := by
  have hlen : ¬ (files.filter matchesRe).length = 0 := by
    simpa [List.length_eq_zero] using hne
  simp only [findLogFiles, hdash, if_true, if_neg hlen]
  rw [if_neg (by decide : ¬ ("date" : String) = "normal")]
  rw [reverseStrSlice_eq]
  simp

lemma stringInStringSlice_iff (str : String) (l : List String) :
    stringInStringSlice str l = true ↔ str ∈ l := by
  induction l with
  | nil => simp [stringInStringSlice]
  | cons x xs ih =>
    simp only [stringInStringSlice]
    by_cases h : x = str
    · subst h; simp
    · rw [if_neg h, ih]
      constructor
      · exact fun hm => List.mem_cons_of_mem x hm
      · intro hm
        rcases List.mem_cons.mp hm with h2 | h2
        · exact absurd h2.symm h
        · exact h2

lemma banDateField_split (off : Int) (d : Timestamp) :
    banDateField off d = (fmtSec (d - off * 1000) ++ " UTC") ++ "+0000" := by
  have h : (" UTC" ++ "+0000" : String) = " UTC+0000" := by decide
  rw [String.append_assoc, h]
  rfl

lemma processBansScan_stop (lr : Timestamp) (off rs : Int) (dr : List String)
    (f : LogFile) (hterm : fileHasTerminal lr f = true) :
    ∀ (fs1 fs2 : List LogFile) (st : ScanState),
      processBansScan lr off rs dr st (fs1 ++ f :: fs2) =
        processBansScan lr off rs dr st (fs1 ++ [f]) := by
  intro fs1
  induction fs1 with
  | nil =>
    intro fs2 st
    simp only [List.nil_append, processBansScan]
    have hflag : (processBansFile lr off rs dr st f).2 = true := by
      unfold processBansFile
      rw [foldl_processBansLine_flag]
      simp [hterm]
    rw [hflag]
    simp
  | cons g gs ih =>
    intro fs2 st
    simp only [List.cons_append, processBansScan]
    cases hfl : (processBansFile lr off rs dr st g).2
    · simp only [hfl, if_false, Bool.false_eq_true]
      exact ih fs2 _
    · simp [hfl]

lemma newDates_max (lr : Timestamp) (files : List LogFile)
    (hn : newEntries lr files ≠ []) :
    ((newEntries lr files).foldl (fun a e => max a e.date) lr ∈ newDates lr files)
    ∧ ∀ d ∈ newDates lr files,
        d ≤ (newEntries lr files).foldl (fun a e => max a e.date) lr := by
  rw [foldl_maxDate_eq_map]
  constructor
  · rcases foldl_max_mem ((newEntries lr files).map Entry.date) lr with h | h
    · exfalso
      obtain ⟨e, he⟩ := List.exists_mem_of_ne_nil (newEntries lr files) hn
      have h1 : lr < e.date := mem_newEntries lr files e he
      have h2 : e.date ≤ ((newEntries lr files).map Entry.date).foldl max lr :=
        foldl_max_le _ lr e.date (List.mem_map_of_mem Entry.date he)
      rw [h] at h2
      exact absurd (lt_of_lt_of_le h1 h2) (lt_irrefl lr)
    · exact h
  · intro d hd
    exact foldl_max_le _ lr d hd

lemma processBans_payload (files : List LogFile) (lr : Timestamp) (off rs : Int)
    (dr : List String) (response : Option String) (wm : String) :
    (processBans files lr off rs dr response wm).payload =
      (newEntries lr files).map
        (fun e => [banDateField off e.date, e.ip, serviceField rs dr e.service]) := by
  rw [processBans_eq]
  by_cases hn : newEntries lr files = []
  · simp [hn]
  · rw [if_neg hn]
    cases response with
    | none => rfl
    | some body =>
      by_cases hb : firstLine body = "1"
      · rw [reportOutcome_ok _ _ _ _ hb]
      · rw [reportOutcome_bad _ _ _ _ hb]

end Failstats

/-!
## Claim theorems
-/

namespace Failstats

/-- C1: the watermark file is written (a `saveRun` happens) iff the cycle
produced at least one new record and the first line of the collector's
response body is exactly `"1"`; in that case the persisted instant is the
maximum timestamp among the cycle's new records (it is one of them and
bounds them all) and the file holds its rendering; on any other
acknowledgment the cycle is fatal and the watermark file content is
unchanged. -/
theorem C1_watermark_commit (files : List LogFile) (lr : Timestamp)
    (off rs : Int) (dr : List String) (response : Option String) (wm : String) :
    ((processBans files lr off rs dr response wm).savedWatermark.isSome = true ↔
      newDates lr files ≠ [] ∧
        ∃ body, response = some body ∧ firstLine body = "1")
    ∧ (∀ t, (processBans files lr off rs dr response wm).savedWatermark = some t →
        (processBans files lr off rs dr response wm).watermarkFile = rfc3339Fmt t ∧
        t ∈ newDates lr files ∧ ∀ d ∈ newDates lr files, d ≤ t)
    ∧ ((processBans files lr off rs dr response wm).savedWatermark = none →
        (processBans files lr off rs dr response wm).watermarkFile = wm)
    ∧ (newDates lr files ≠ [] →
        (∀ body, response = some body → firstLine body ≠ "1") →
        (processBans files lr off rs dr response wm).outcome = CycleOutcome.fatal ∧
        (processBans files lr off rs dr response wm).watermarkFile = wm) := by
  rw [processBans_eq]
  by_cases hn : newEntries lr files = []
  · rw [if_pos hn]
    simp [newDates, hn]
  · rw [if_neg hn]
    have hdne : newDates lr files ≠ [] := by simp [newDates, hn]
    cases response with
    | none =>
      refine ⟨?_, ?_, ?_, ?_⟩
      · constructor
        · intro h; simp [reportOutcome] at h
        · rintro ⟨_, body2, hbody2, _⟩; cases hbody2
      · intro t ht; simp [reportOutcome] at ht
      · intro _; rfl
      · intro _ _; exact ⟨rfl, rfl⟩
    | some body =>
      by_cases hb : firstLine body = "1"
      · rw [reportOutcome_ok _ _ _ _ hb]
        refine ⟨?_, ?_, ?_, ?_⟩
        · constructor
          · intro _; exact ⟨hdne, body, rfl, hb⟩
          · intro _; rfl
        · intro t ht
          obtain rfl : (newEntries lr files).foldl (fun a e => max a e.date) lr = t :=
            Option.some.inj ht
          have hcur := newDates_max lr files hn
          exact ⟨rfl, hcur.1, hcur.2⟩
        · intro hnone; exact absurd hnone (Option.some_ne_none _)
        · intro _ hforall; exact absurd hb (hforall body rfl)
      · rw [reportOutcome_bad _ _ _ _ hb]
        refine ⟨?_, ?_, ?_, ?_⟩
        · constructor
          · intro h; simp at h
          · rintro ⟨_, body2, hbody2, hfl⟩
            obtain rfl : body = body2 := Option.some.inj hbody2
            exact absurd hfl hb
        · intro t ht; simp at ht
        · intro _; rfl
        · intro _ _; exact ⟨rfl, rfl⟩

/-- Witness for C1: one new record at instant 2500 past the watermark 1000
and acknowledgment `"1"` commit the watermark file to the rendering of
2500. -/
theorem C1_witness :
    (processBans [[some ⟨2500, "sshd", "1.2.3.4"⟩]] 1000 0 1 [] (some "1")
        "old").savedWatermark.isSome = true ∧
    (processBans [[some ⟨2500, "sshd", "1.2.3.4"⟩]] 1000 0 1 [] (some "1")
        "old").watermarkFile = rfc3339Fmt 2500 := by
  have h := C1_watermark_commit [[some ⟨2500, "sshd", "1.2.3.4"⟩]] 1000 0 1 []
    (some "1") "old"
  refine ⟨h.1.mpr ⟨by decide, "1", rfl, by decide⟩, ?_⟩
  exact (h.2.1 2500 (by decide)).1

/-- C2 counterexample: the record at 1200 ms is at or before the watermark
1500 ms and not exactly equal to it, yet the current file is not marked
terminal: the next file is still opened and its record `"10.0.0.2"` is
retained, because 1200 falls in the watermark's formatted second. -/
theorem C2_counterexample :
    ((1200 : Int) ≤ 1500 ∧ (1200 : Int) ≠ 1500) ∧
    (processBansScan 1500 0 1 []
        { banDates := [], banIPs := [], services := [], current := 1500 }
        [[some ⟨1200, "sshd", "10.0.0.1"⟩], [some ⟨2500, "sshd", "10.0.0.2"⟩]]).banIPs
      = ["10.0.0.2"] := by decide

/-- C2 (amended): for every scanned record whose parsed timestamp is at or
before the watermark and whose whole-second rendering differs from the
watermark's, the scanner marks the current file as terminal: it finishes
the remainder of that file but opens no further files of the set — the
scan result does not depend on the files after it. -/
theorem C2_amended_terminal (lr : Timestamp) (off rs : Int) (dr : List String)
    (st : ScanState) (fs1 : List LogFile) (f : LogFile) (fs2 : List LogFile)
    (e : Entry) (hmem : some e ∈ f) (hle : e.date ≤ lr)
    (hsec : secOf e.date ≠ secOf lr) :
    processBansScan lr off rs dr st (fs1 ++ f :: fs2) =
      processBansScan lr off rs dr st (fs1 ++ [f]) := by
  have h1 : ¬ secOf lr = secOf e.date := fun hh => hsec hh.symm
  have h2 : ¬ lr < e.date := not_lt.mpr hle
  have hterm : fileHasTerminal lr f = true := by
    refine List.any_eq_true.mpr ⟨some e, hmem, ?_⟩
    rw [lineTerminal_some, if_neg h1, if_neg h2]
  exact processBansScan_stop lr off rs dr f hterm fs1 fs2 st

/-- Witness for the amended C2: a record at 1000 ms before the watermark
5000 ms (different second) makes the scan ignore the following file. -/
theorem C2_amended_witness :
    processBansScan 5000 0 1 []
        { banDates := [], banIPs := [], services := [], current := 5000 }
        [[some ⟨1000, "sshd", "10.0.0.1"⟩], [some ⟨9999, "sshd", "10.0.0.2"⟩]]
      = processBansScan 5000 0 1 []
          { banDates := [], banIPs := [], services := [], current := 5000 }
          [[some ⟨1000, "sshd", "10.0.0.1"⟩]] :=
  C2_amended_terminal 5000 0 1 []
    { banDates := [], banIPs := [], services := [], current := 5000 }
    [] [some ⟨1000, "sshd", "10.0.0.1"⟩] [[some ⟨9999, "sshd", "10.0.0.2"⟩]]
    ⟨1000, "sshd", "10.0.0.1"⟩ (by decide) (by decide) (by decide)

/-- C3: a record whose parsed timestamp exactly equals the watermark is
skipped — the scan state (batch and running maximum) and the `lastFile`
flag are unchanged — and scanning of the file set continues: a file
holding only such a record is transparent to the file loop. -/
theorem C3_equal_skip (lr : Timestamp) (off rs : Int) (dr : List String)
    (st : ScanState) (b : Bool) (e : Entry) (h : e.date = lr) :
    (processBansLine lr off rs dr (st, b) (some e) = (st, b)) ∧
    (∀ fs : List LogFile,
      processBansScan lr off rs dr st ([some e] :: fs) =
        processBansScan lr off rs dr st fs) := by
  have h1 : secOf lr = secOf e.date := by rw [h]
  refine ⟨processBansLine_skip lr off rs dr (st, b) e h1, ?_⟩
  intro fs
  simp only [processBansScan, processBansFile, List.foldl_cons, List.foldl_nil]
  rw [processBansLine_skip lr off rs dr (st, false) e h1]
  simp

/-- Witness for C3: a record exactly at the watermark 1000 ms leaves the
scan state untouched. -/
theorem C3_witness :
    processBansLine 1000 0 1 []
        ({ banDates := [], banIPs := [], services := [], current := 1000 }, false)
        (some ⟨1000, "sshd", "1.2.3.4"⟩)
      = ({ banDates := [], banIPs := [], services := [], current := 1000 }, false) :=
  (C3_equal_skip 1000 0 1 []
    { banDates := [], banIPs := [], services := [], current := 1000 }
    false ⟨1000, "sshd", "1.2.3.4"⟩ rfl).1

/-- C4 counterexample: with matched set `{other.log, other.log-20200517}`
the resolver does not prepend the bare base name `other.log`; it returns
the literal `fail2ban.log` at the head instead. -/
theorem C4_counterexample :
    findLogFiles ["other.log", "other.log-20200517"] (fun _ => true)
        = some ["fail2ban.log", "other.log-20200517"] ∧
      findLogFiles ["other.log", "other.log-20200517"] (fun _ => true)
        ≠ some ["other.log", "other.log-20200517"] := by decide

/-- C4 (amended): when at least one matched name contains a dash, the
resolver returns the matched names minus the first, reversed, with the
literal string `"fail2ban.log"` (not the bare base name) prepended. -/
theorem C4_date_rotation (files : List String) (matchesRe : String → Bool)
    (hne : files.filter matchesRe ≠ [])
    (hdash : (files.filter matchesRe).any (fun n => n.data.contains '-') = true) :
    findLogFiles files matchesRe =
      some ("fail2ban.log" :: ((files.filter matchesRe).drop 1).reverse) :=
  findLogFiles_date_eq files matchesRe hne hdash

/-- Witness for C4: the claim's concrete example set, in lexicographic
directory order, resolves most-recent first. -/
theorem C4_witness :
    findLogFiles ["fail2ban.log", "fail2ban.log-20200517", "fail2ban.log-20200531"]
        (fun _ => true)
      = some ["fail2ban.log", "fail2ban.log-20200531", "fail2ban.log-20200517"] :=
  (C4_date_rotation ["fail2ban.log", "fail2ban.log-20200517", "fail2ban.log-20200531"]
    (fun _ => true) (by decide) (by decide)).trans (by decide)

/-- C5: every emitted record's timestamp field is the parsed local
timestamp minus the one UTC offset of the cycle (in seconds, converted to
milliseconds), rendered at second precision, with the fixed `"+0000"`
designator as its literal suffix. -/
theorem C5_utc_timestamps (files : List LogFile) (lr : Timestamp) (off rs : Int)
    (dr : List String) (response : Option String) (wm : String) :
    (processBans files lr off rs dr response wm).payload =
      (newEntries lr files).map
        (fun e => [(fmtSec (e.date - off * 1000) ++ " UTC") ++ "+0000", e.ip,
                   serviceField rs dr e.service]) := by
  rw [processBans_payload]
  simp only [banDateField_split]

/-- C6: every emitted record's service field is `serviceField`, which is
the constant `"undisclosed"` whenever service reporting is disabled
(`reportServices = 0`), `"undisclosed"` for a suppressed raw name when
reporting is enabled, and the raw name verbatim otherwise. -/
theorem C6_service_disclosure (files : List LogFile) (lr : Timestamp)
    (off rs : Int) (dr : List String) (response : Option String) (wm : String) :
    ((processBans files lr off rs dr response wm).payload =
      (newEntries lr files).map
        (fun e => [banDateField off e.date, e.ip, serviceField rs dr e.service]))
    ∧ (rs = 0 → ∀ name, serviceField rs dr name = "undisclosed")
    ∧ (rs ≠ 0 → ∀ name, name ∈ dr → serviceField rs dr name = "undisclosed")
    ∧ (rs ≠ 0 → ∀ name, name ∉ dr → serviceField rs dr name = name) := by
  refine ⟨processBans_payload files lr off rs dr response wm, ?_, ?_, ?_⟩
  · intro h0 name; simp [serviceField, h0]
  · intro h0 name hmem
    have hne : ¬ dr.length = 0 := by
      intro hl; rw [List.length_eq_zero] at hl; subst hl; cases hmem
    simp [serviceField, h0, hne, (stringInStringSlice_iff name dr).mpr hmem]
  · intro h0 name hmem
    by_cases hl : dr.length = 0
    · simp [serviceField, h0, hl]
    · cases hsb : stringInStringSlice name dr with
      | false => simp [serviceField, h0, hl, hsb]
      | true => exact absurd ((stringInStringSlice_iff name dr).mp hsb) hmem

/-- Witness for C6: suppressed list `["jupyter"]` with reporting enabled
redacts `jupyter` and passes `sshd` through; disabled reporting redacts
everything. -/
theorem C6_witness :
    serviceField 1 ["jupyter"] "jupyter" = "undisclosed" ∧
    serviceField 1 ["jupyter"] "sshd" = "sshd" ∧
    serviceField 0 ["jupyter"] "sshd" = "undisclosed" := by
  refine ⟨?_, ?_, ?_⟩
  · exact (C6_service_disclosure [] 0 0 1 ["jupyter"] none "").2.2.1
      (by decide) "jupyter" (by decide)
  · exact (C6_service_disclosure [] 0 0 1 ["jupyter"] none "").2.2.2
      (by decide) "sshd" (by decide)
  · exact (C6_service_disclosure [] 0 0 0 ["jupyter"] none "").2.1 rfl "sshd"

/-- C7: a cycle that extracts zero new records returns the nothing-to-do
outcome with no transport call, no `saveRun`, an empty payload and the
watermark file content unchanged. -/
theorem C7_empty_noop (files : List LogFile) (lr : Timestamp) (off rs : Int)
    (dr : List String) (response : Option String) (wm : String)
    (h : newEntries lr files = []) :
    processBans files lr off rs dr response wm =
      { outcome := CycleOutcome.nothingToDo, transportCalled := false,
        payload := [], savedWatermark := none, watermarkFile := wm } := by
  rw [processBans_eq, if_pos h]

/-- Witness for C7: one record before the watermark yields no new records
and hence the nothing-to-do result, even with a success acknowledgment
available. -/
theorem C7_witness :
    processBans [[some ⟨500, "sshd", "1.2.3.4"⟩]] 1000 0 1 [] (some "1") "old" =
      { outcome := CycleOutcome.nothingToDo, transportCalled := false,
        payload := [], savedWatermark := none, watermarkFile := "old" } :=
  C7_empty_noop [[some ⟨500, "sshd", "1.2.3.4"⟩]] 1000 0 1 [] (some "1") "old"
    (by decide)

/-- C8: loading the watermark returns the sentinel `defaultTime` (not an
error) when the backing file does not exist, fails when the path is a
directory, and fails when the stored content does not parse as a
timestamp. -/
theorem C8_lastRun_contract (parse : String → Option Timestamp) (path : String) :
    (lastRun parse path FileState.notExist = Except.ok defaultTime)
    ∧ (∃ msg, lastRun parse path FileState.isDir = Except.error msg)
    ∧ (∀ content, parse (firstLine content) = none →
        ∃ msg, lastRun parse path (FileState.regular content) = Except.error msg) := by
  refine ⟨rfl, ⟨path ++ " is a directory", rfl⟩, ?_⟩
  intro content hp
  refine ⟨"Unable to parse last run time from " ++ path, ?_⟩
  simp [lastRun, hp]

/-- Witness for C8: a parser that rejects everything makes the regular-file
case fail, while a missing file still yields the sentinel. -/
theorem C8_witness :
    (lastRun (fun _ => none) "lastrun" FileState.notExist = Except.ok defaultTime)
    ∧ (∃ msg, lastRun (fun _ => none) "lastrun" FileState.isDir = Except.error msg)
    ∧ (∃ msg, lastRun (fun _ => none) "lastrun" (FileState.regular "garbage")
        = Except.error msg) := by
  have h := C8_lastRun_contract (fun _ => none) "lastrun"
  exact ⟨h.1, h.2.1, h.2.2 "garbage" rfl⟩

/-- C9: under the date-suffix convention the head of the resolver's result
is always the literal `"fail2ban.log"`: when the first matched name is not
`"fail2ban.log"`, the returned head still is, substituting the actual base
file name. -/
theorem C9_hardcoded_base (files : List String) (matchesRe : String → Bool)
    (hne : files.filter matchesRe ≠ [])
    (hdash : (files.filter matchesRe).any (fun n => n.data.contains '-') = true)
    (hhd : (files.filter matchesRe).headD "" ≠ "fail2ban.log") :
    findLogFiles files matchesRe =
      some ("fail2ban.log" :: ((files.filter matchesRe).drop 1).reverse) ∧
    "fail2ban.log" ≠ (files.filter matchesRe).headD "" :=
  ⟨findLogFiles_date_eq files matchesRe hne hdash, fun hh => hhd hh.symm⟩

/-- Witness for C9: base file `other.log` is replaced by the literal
`fail2ban.log` at the head of the resolved list. -/
theorem C9_witness :
    findLogFiles ["other.log", "other.log-20200517"] (fun _ => true)
        = some ["fail2ban.log", "other.log-20200517"] ∧
      ("fail2ban.log" : String) ≠ "other.log" := by
  have h := C9_hardcoded_base ["other.log", "other.log-20200517"] (fun _ => true)
    (by decide) (by decide) (by decide)
  exact ⟨h.1.trans (by decide), by decide⟩

/-- C10: a record whose parsed timestamp falls in the watermark's formatted
second (equal `secOf` values, milliseconds free to differ) is skipped
entirely: it is not retained and the running maximum `current` is left
unchanged. -/
theorem C10_second_precision_skip (lr : Timestamp) (off rs : Int)
    (dr : List String) (st : ScanState) (b : Bool) (e : Entry)
    (h : secOf e.date = secOf lr) :
    processBansLine lr off rs dr (st, b) (some e) = (st, b) :=
  processBansLine_skip lr off rs dr (st, b) e h.symm

/-- Witness for C10: 1700 ms differs from the watermark 1500 ms but shares
its second, so the record is dropped and `current` stays 1500. -/
theorem C10_witness :
    (processBansLine 1500 0 1 []
        ({ banDates := [], banIPs := [], services := [], current := 1500 }, false)
        (some ⟨1700, "sshd", "1.2.3.4"⟩)
      = ({ banDates := [], banIPs := [], services := [], current := 1500 }, false))
    ∧ (1700 : Int) ≠ 1500 :=
  ⟨C10_second_precision_skip 1500 0 1 []
    { banDates := [], banIPs := [], services := [], current := 1500 }
    false ⟨1700, "sshd", "1.2.3.4"⟩ (by decide), by decide⟩

end Failstats
